import Mathlib

/-!
Verification of the CPU nonbonded force kernel (CpuNonbondedForce.cpp).

Shallow embedding of the kernel: the Ewald reciprocal-space k-vector
enumeration, the Ewald scale-factor tabulation and table lookup, the
minimum-image displacement, the scalar and blocked direct-space pair
kernels, the reaction-field constants, the thread reduction, and the
exclusion handling of the brute-force and Ewald paths.

Machine floats are modelled as exact rationals or reals; loops over C
integer ranges are modelled as folds over List.range.
-/

set_option maxHeartbeats 1000000

namespace CpuNonbonded

/-- NUM_TABLE_POINTS constant from CpuNonbondedForce.cpp line 44. -/
def NUM_TABLE_POINTS : ℕ := 1025

/-! ## Ewald reciprocal-space k-vector enumeration (calculateReciprocalIxn, lines 239-289)

The loop nest

    int lowry = 0;
    int lowrz = 1;
    for (int rx = 0; rx < numRx; rx++)
      for (int ry = lowry; ry < numRy; ry++) {
        for (int rz = lowrz; rz < numRz; rz++) {
          ... visit (rx, ry, rz) ...
          lowrz = 1 - numRz;
        }
        lowry = 1 - numRy;
      }

is modelled as a state machine: the state holds the list of visited
k-vectors and the running lowry / lowrz offsets.  The inner rz loop is a
single pass appending its visits; lowrz is updated only when that loop ran
at least one iteration, exactly as in the C code (the assignment sits in
the loop body).  lowry is updated after every ry iteration. -/

structure EwaldLoopState where
  visits : List (ℤ × ℤ × ℤ)
  lowry : ℤ
  lowrz : ℤ
  deriving Repr, DecidableEq

/-- One k-vector strip: the rz values visited by a single run of the inner
loop, namely lowrz, lowrz+1, ..., numRz-1. -/
def rzRange (numRz lowrz rx ry : ℤ) : List (ℤ × ℤ × ℤ) :=
  (List.range (numRz - lowrz).toNat).map (fun (k : ℕ) => (rx, ry, lowrz + (k : ℤ)))

/-- One execution of the inner rz loop from the current state. -/
def rzPass (numRz rx ry : ℤ) (st : EwaldLoopState) : EwaldLoopState :=
  { visits := st.visits ++ rzRange numRz st.lowrz rx ry,
    lowry := st.lowry,
    lowrz := if (numRz - st.lowrz).toNat = 0 then st.lowrz else 1 - numRz }

/-- One execution of the middle ry loop: ry runs from the entry value of
lowry up to numRy-1; each iteration runs the rz loop and then assigns
lowry := 1 - numRy. -/
def ryPass (numRy numRz rx : ℤ) (st : EwaldLoopState) : EwaldLoopState :=
  (List.range (numRy - st.lowry).toNat).foldl
    (fun (s : EwaldLoopState) (k : ℕ) =>
      { rzPass numRz rx (st.lowry + (k : ℤ)) s with lowry := 1 - numRy })
    st

/-- The complete k-vector visit sequence of the reciprocal-space loop of
calculateReciprocalIxn. -/
def calculateReciprocalIxnKVectors (numRx numRy numRz : ℤ) : List (ℤ × ℤ × ℤ) :=
  ((List.range numRx.toNat).foldl
    (fun (s : EwaldLoopState) (k : ℕ) => ryPass numRy numRz (k : ℤ) s)
    { visits := [], lowry := 0, lowrz := 1 }).visits

/-- The set of k-vectors the specification says the loop covers: the
non-redundant half-space, 0 <= rx < numRx, |ry| < numRy, |rz| < numRz,
lexicographically greater than (0,0,0). -/
def InHalfSpace (numRx numRy numRz : ℤ) (v : ℤ × ℤ × ℤ) : Prop :=
  (0 ≤ v.1 ∧ v.1 < numRx) ∧ (-numRy < v.2.1 ∧ v.2.1 < numRy) ∧
  (-numRz < v.2.2 ∧ v.2.2 < numRz) ∧
  (0 < v.1 ∨ (v.1 = 0 ∧ 0 < v.2.1) ∨ (v.1 = 0 ∧ v.2.1 = 0 ∧ 0 < v.2.2))

instance (numRx numRy numRz : ℤ) (v : ℤ × ℤ × ℤ) :
    Decidable (InHalfSpace numRx numRy numRz v) := by
  unfold InHalfSpace; infer_instance

lemma kvectors_2_2_2 :
    calculateReciprocalIxnKVectors 2 2 2 =
      [(0,0,1), (0,1,-1), (0,1,0), (0,1,1),
       (1,-1,-1), (1,-1,0), (1,-1,1), (1,0,-1), (1,0,0), (1,0,1),
       (1,1,-1), (1,1,0), (1,1,1)] := by decide

lemma kvectors_2_1_1 : calculateReciprocalIxnKVectors 2 1 1 = [] := by decide

/-- The block of k-vectors visited by a steady-state ry pass: ry runs over
1-numRy .. numRy-1 and rz over 1-numRz .. numRz-1. -/
def fullBlock (numRy numRz rx : ℤ) : List (ℤ × ℤ × ℤ) :=
  (List.range (2 * numRy - 1).toNat).flatMap
    (fun k => rzRange numRz (1 - numRz) rx (1 - numRy + (k : ℤ)))

/-- Closed form of the visit sequence for numRx, numRy >= 1 and numRz >= 2. -/
def ewaldClosedForm (numRx numRy numRz : ℤ) : List (ℤ × ℤ × ℤ) :=
  rzRange numRz 1 0 0 ++
    ((List.range (numRy - 1).toNat).flatMap
        (fun k => rzRange numRz (1 - numRz) 0 (1 + (k : ℤ))) ++
      (List.range (numRx - 1).toNat).flatMap
        (fun k => fullBlock numRy numRz (1 + (k : ℤ))))

lemma mem_rzRange {numRz lowrz rx ry : ℤ} {v : ℤ × ℤ × ℤ} :
    v ∈ rzRange numRz lowrz rx ry ↔
      v.1 = rx ∧ v.2.1 = ry ∧ lowrz ≤ v.2.2 ∧ v.2.2 < numRz := by
  obtain ⟨a, b, c⟩ := v
  simp only [rzRange, List.mem_map, List.mem_range, Prod.mk.injEq]
  constructor
  · rintro ⟨k, hk, h1, h2, h3⟩
    refine ⟨h1.symm, h2.symm, by omega, by omega⟩
  · rintro ⟨h1, h2, h3, h4⟩
    exact ⟨(c - lowrz).toNat, by omega, h1.symm, h2.symm, by omega⟩

lemma nodup_rzRange {numRz lowrz rx ry : ℤ} : (rzRange numRz lowrz rx ry).Nodup := by
  refine List.Nodup.map ?_ (List.nodup_range _)
  intro k1 k2 h
  simp only [Prod.mk.injEq] at h
  omega

lemma foldl_rz (numRy numRz rx : ℤ) (g : ℕ → ℤ) :
    ∀ (n : ℕ) (s : EwaldLoopState), s.lowrz = 1 - numRz → 1 ≤ numRz →
      (List.range n).foldl
          (fun (s : EwaldLoopState) (k : ℕ) =>
            { rzPass numRz rx (g k) s with lowry := 1 - numRy }) s =
        { visits := s.visits ++
            (List.range n).flatMap (fun k => rzRange numRz (1 - numRz) rx (g k)),
          lowry := if n = 0 then s.lowry else 1 - numRy,
          lowrz := 1 - numRz } := by
  intro n
  induction n with
  | zero =>
    intro s h1 h2
    simp [← h1]
  | succ n ih =>
    intro s h1 h2
    rw [List.range_succ, List.foldl_append, ih s h1 h2, List.foldl_cons, List.foldl_nil]
    have hne : ¬ (numRz - (1 - numRz)).toNat = 0 := by omega
    simp only [rzPass, if_neg hne]
    rw [List.flatMap_append]
    simp [List.append_assoc]

lemma ryPass_steady (numRy numRz rx : ℤ) (s : EwaldLoopState)
    (h1 : s.lowry = 1 - numRy) (h2 : s.lowrz = 1 - numRz)
    (hy : 1 ≤ numRy) (hz : 1 ≤ numRz) :
    ryPass numRy numRz rx s =
      { visits := s.visits ++ fullBlock numRy numRz rx,
        lowry := 1 - numRy, lowrz := 1 - numRz } := by
  unfold ryPass
  rw [foldl_rz numRy numRz rx (fun k => s.lowry + (k : ℤ)) ((numRy - s.lowry).toNat) s h2 hz]
  rw [if_neg (by omega)]
  congr 1
  rw [h1, show numRy - (1 - numRy) = 2 * numRy - 1 from by ring]
  rfl

lemma ryPass_start (numRy numRz rx : ℤ) (hy : 1 ≤ numRy) (hz : 2 ≤ numRz) :
    ryPass numRy numRz rx { visits := [], lowry := 0, lowrz := 1 } =
      { visits := rzRange numRz 1 rx 0 ++
          (List.range (numRy - 1).toNat).flatMap
            (fun k => rzRange numRz (1 - numRz) rx (1 + (k : ℤ))),
        lowry := 1 - numRy, lowrz := 1 - numRz } := by
  unfold ryPass
  dsimp only
  rw [show (numRy - 0).toNat = (numRy - 1).toNat + 1 from by omega,
    List.range_succ_eq_map, List.foldl_cons, List.foldl_map]
  have hfirst :
      ({ rzPass numRz rx (0 + ((0 : ℕ) : ℤ))
          { visits := [], lowry := 0, lowrz := 1 } with lowry := 1 - numRy }) =
        ({ visits := rzRange numRz 1 rx 0, lowry := 1 - numRy,
           lowrz := 1 - numRz } : EwaldLoopState) := by
    simp only [rzPass, Nat.cast_zero, add_zero]
    rw [if_neg (by omega)]
    simp
  rw [hfirst,
    foldl_rz numRy numRz rx (fun k => 0 + ((k + 1 : ℕ) : ℤ)) ((numRy - 1).toNat) _ rfl
      (by omega)]
  simp only [ite_self]
  congr 1
  congr 1
  refine List.flatMap_congr (fun k _ => ?_)
  congr 1
  push_cast
  ring

lemma foldl_ry (numRy numRz : ℤ) (g : ℕ → ℤ) :
    ∀ (m : ℕ) (s : EwaldLoopState), s.lowry = 1 - numRy → s.lowrz = 1 - numRz →
      1 ≤ numRy → 1 ≤ numRz →
      (List.range m).foldl
          (fun (s : EwaldLoopState) (k : ℕ) => ryPass numRy numRz (g k) s) s =
        { visits := s.visits ++
            (List.range m).flatMap (fun k => fullBlock numRy numRz (g k)),
          lowry := 1 - numRy, lowrz := 1 - numRz } := by
  intro m
  induction m with
  | zero =>
    intro s h1 h2 hy hz
    simp [← h1, ← h2]
  | succ m ih =>
    intro s h1 h2 hy hz
    rw [List.range_succ, List.foldl_append, ih s h1 h2 hy hz, List.foldl_cons,
      List.foldl_nil]
    rw [ryPass_steady numRy numRz (g m) _ rfl rfl hy hz]
    rw [List.flatMap_append]
    simp [List.append_assoc]

lemma kvectors_closed (numRx numRy numRz : ℤ)
    (hx : 1 ≤ numRx) (hy : 1 ≤ numRy) (hz : 2 ≤ numRz) :
    calculateReciprocalIxnKVectors numRx numRy numRz =
      ewaldClosedForm numRx numRy numRz := by
  unfold calculateReciprocalIxnKVectors
  rw [show numRx.toNat = (numRx - 1).toNat + 1 from by omega,
    List.range_succ_eq_map, List.foldl_cons, List.foldl_map]
  rw [show ((0 : ℕ) : ℤ) = (0 : ℤ) from rfl,
    ryPass_start numRy numRz 0 hy hz]
  rw [foldl_ry numRy numRz (fun k => ((k + 1 : ℕ) : ℤ)) ((numRx - 1).toNat) _ rfl rfl hy
    (by omega)]
  unfold ewaldClosedForm
  dsimp only
  rw [List.append_assoc]
  congr 1
  congr 1
  refine List.flatMap_congr (fun k _ => ?_)
  congr 1
  push_cast
  ring

lemma mem_closedForm {numRx numRy numRz : ℤ} {v : ℤ × ℤ × ℤ}
    (hx : 1 ≤ numRx) (hy : 1 ≤ numRy) (hz : 2 ≤ numRz) :
    v ∈ ewaldClosedForm numRx numRy numRz ↔ InHalfSpace numRx numRy numRz v := by
  obtain ⟨a, b, c⟩ := v
  unfold ewaldClosedForm InHalfSpace fullBlock
  simp only [List.mem_append, List.mem_flatMap, List.mem_range, mem_rzRange]
  constructor
  · rintro (⟨h1, h2, h3, h4⟩ | ⟨k, hk, h1, h2, h3, h4⟩ | ⟨k, hk, j, hj, h1, h2, h3, h4⟩) <;>
      simp_all <;> omega
  · intro h
    simp only at h
    by_cases ha : a = 0
    · by_cases hb : 0 < b
      · exact Or.inr (Or.inl ⟨(b - 1).toNat, by omega, by omega, by omega, by omega, by omega⟩)
      · exact Or.inl ⟨by omega, by omega, by omega, by omega⟩
    · exact Or.inr (Or.inr ⟨(a - 1).toNat, by omega, (b - (1 - numRy)).toNat, by omega,
        by omega, by omega, by omega, by omega⟩)

lemma nodup_fullBlock {numRy numRz rx : ℤ} : (fullBlock numRy numRz rx).Nodup := by
  unfold fullBlock
  rw [List.nodup_flatMap]
  refine ⟨fun k _ => nodup_rzRange, ?_⟩
  refine (List.pairwise_lt_range _).imp ?_
  intro k1 k2 hlt
  rw [Function.onFun, List.disjoint_left]
  intro v hv1 hv2
  rw [mem_rzRange] at hv1 hv2
  omega

lemma nodup_closedForm {numRx numRy numRz : ℤ} :
    (ewaldClosedForm numRx numRy numRz).Nodup := by
  unfold ewaldClosedForm
  rw [List.nodup_append, List.nodup_append]
  refine ⟨nodup_rzRange, ⟨?_, ?_, ?_⟩, ?_⟩
  · rw [List.nodup_flatMap]
    refine ⟨fun k _ => nodup_rzRange, ?_⟩
    refine (List.pairwise_lt_range _).imp ?_
    intro k1 k2 hlt
    rw [Function.onFun, List.disjoint_left]
    intro v hv1 hv2
    rw [mem_rzRange] at hv1 hv2
    omega
  · rw [List.nodup_flatMap]
    refine ⟨fun k _ => nodup_fullBlock, ?_⟩
    refine (List.pairwise_lt_range _).imp ?_
    intro k1 k2 hlt
    rw [Function.onFun, List.disjoint_left]
    intro v hv1 hv2
    unfold fullBlock at hv1 hv2
    simp only [List.mem_flatMap, List.mem_range, mem_rzRange] at hv1 hv2
    obtain ⟨j1, hj1, e1, _⟩ := hv1
    obtain ⟨j2, hj2, e2, _⟩ := hv2
    omega
  · rw [List.disjoint_left]
    intro v hv1 hv2
    simp only [List.mem_flatMap, List.mem_range, mem_rzRange] at hv1
    unfold fullBlock at hv2
    simp only [List.mem_flatMap, List.mem_range, mem_rzRange] at hv2
    obtain ⟨j1, hj1, e1, f1, _⟩ := hv1
    obtain ⟨j2, hj2, k2, hk2, e2, f2, _⟩ := hv2
    omega
  · rw [List.disjoint_left]
    intro v hv1 hv2
    rw [mem_rzRange] at hv1
    rw [List.mem_append] at hv2
    unfold fullBlock at hv2
    simp only [List.mem_flatMap, List.mem_range, mem_rzRange] at hv2
    obtain ⟨h1, h2, h3, h4⟩ := hv1
    rcases hv2 with ⟨j, hj, e, f, _⟩ | ⟨j, hj, k, hk, e, f, _⟩ <;> omega

lemma count_eq_one_of_nodup_mem {α : Type} [BEq α] [LawfulBEq α] {l : List α}
    (hn : l.Nodup) {a : α} (hm : a ∈ l) : l.count a = 1 := by
  induction l with
  | nil => cases hm
  | cons x xs ih =>
    rw [List.count_cons]
    rcases List.mem_cons.1 hm with rfl | hm2
    · rw [List.count_eq_zero_of_not_mem (List.nodup_cons.1 hn).1]
      simp
    · have hne : a ≠ x := by
        rintro rfl
        exact (List.nodup_cons.1 hn).1 hm2
      rw [ih (List.nodup_cons.1 hn).2 hm2]
      simp [hne, Ne.symm hne]

/-- C1 (amended: numRz must be at least 2; see the counterexample below for
numRz = 1): for every Ewald configuration with numRx, numRy >= 1 and
numRz >= 2, the reciprocal-space loop of calculateReciprocalIxn visits
exactly the set of integer k-vectors (rx, ry, rz) with 0 <= rx < numRx,
-numRy < ry < numRy, -numRz < rz < numRz that are lexicographically greater
than (0,0,0), each exactly once, so the non-redundant half-space is covered
exactly once and k = (0,0,0) is excluded. -/
theorem ewald_kvector_coverage (numRx numRy numRz : ℤ)
    (hx : 1 ≤ numRx) (hy : 1 ≤ numRy) (hz : 2 ≤ numRz) (v : ℤ × ℤ × ℤ) :
    (calculateReciprocalIxnKVectors numRx numRy numRz).count v =
      if InHalfSpace numRx numRy numRz v then 1 else 0 := by
  rw [kvectors_closed numRx numRy numRz hx hy hz]
  by_cases h : InHalfSpace numRx numRy numRz v
  · rw [if_pos h]
    exact count_eq_one_of_nodup_mem nodup_closedForm
      ((mem_closedForm hx hy hz).2 h)
  · rw [if_neg h]
    exact List.count_eq_zero_of_not_mem (fun hm => h ((mem_closedForm hx hy hz).1 hm))

/-- C1 counterexample: with numRx = 2, numRy = 1, numRz = 1 (all >= 1, as the
claim demands) the loop visits nothing at all, although (1,0,0) lies in the
required half-space: lowrz starts at 1, the rz loop never runs, and lowrz is
never folded down to 1 - numRz. -/
theorem ewald_kvector_coverage_cex :
    InHalfSpace 2 1 1 (1, 0, 0) ∧
      (calculateReciprocalIxnKVectors 2 1 1).count (1, 0, 0) = 0 ∧
      ¬ (calculateReciprocalIxnKVectors 2 1 1).count (1, 0, 0) = 1 := by
  refine ⟨by decide, by decide, by decide⟩

/-- Witness for the amended C1 theorem at numRx = numRy = 1, numRz = 2. -/
theorem ewald_kvector_coverage_witness :
    (calculateReciprocalIxnKVectors 1 1 2).count (0, 0, 1) = 1 := by
  have h := ewald_kvector_coverage 1 1 2 (by norm_num) (by norm_num) (by norm_num) (0, 0, 1)
  rw [h]
  decide

/-! ## Ewald scale-factor tabulation (tabulateEwaldScaleFactor, lines 158-178)

Machine floats are modelled as exact rationals.  The second derivatives come
from SplineFitter::createNaturalSpline, erfc and exp from the C math
library, and TWO_OVER_SQRT_PI (line 43) is 2/sqrt(PI_M) computed by the C
library sqrt; all of these are external to this translation unit, so they
enter the embedding as opaque function or constant parameters. -/

/-- Grid step: ewaldDX = cutoffDistance/(NUM_TABLE_POINTS-2), line 159. -/
def ewaldDX (cutoffDistance : ℚ) : ℚ :=
  cutoffDistance / ((NUM_TABLE_POINTS : ℚ) - 2)

/-- Sample abscissa: r = i*cutoffDistance/(NUM_TABLE_POINTS-2), line 165. -/
def tableR (cutoffDistance : ℚ) (i : ℕ) : ℚ :=
  (i : ℚ) * cutoffDistance / ((NUM_TABLE_POINTS : ℚ) - 2)

/-- Sampled function: y = erfc(alphaR) + TWO_OVER_SQRT_PI*alphaR*exp(-alphaR^2),
line 168; erfc, exp and TWO_OVER_SQRT_PI are opaque external parameters. -/
def ewaldY (erfc exp : ℚ → ℚ) (TWO_OVER_SQRT_PI alphaEwald r : ℚ) : ℚ :=
  erfc (alphaEwald * r) +
    TWO_OVER_SQRT_PI * (alphaEwald * r) * exp (-(alphaEwald * r) * (alphaEwald * r))

/-- The sampled y vector of tabulateEwaldScaleFactor: y[i] for
i = 0 .. NUM_TABLE_POINTS (loop at lines 164-169). -/
def ewaldTableSamples (erfc exp : ℚ → ℚ) (TWO_OVER_SQRT_PI alphaEwald cutoffDistance : ℚ) :
    List ℚ :=
  (List.range (NUM_TABLE_POINTS + 1)).map
    (fun i => ewaldY erfc exp TWO_OVER_SQRT_PI alphaEwald (tableR cutoffDistance i))

/-- Bucket i of ewaldScaleTable (lines 172-177): the quadruple
 (y[i], y[i+1], deriv[i]*ewaldDX^2/6, deriv[i+1]*ewaldDX^2/6), where deriv is
the opaque output of the external natural-spline fit. -/
def ewaldScaleTable (erfc exp : ℚ → ℚ) (TWO_OVER_SQRT_PI : ℚ) (deriv : ℕ → ℚ)
    (alphaEwald cutoffDistance : ℚ) (i : ℕ) : ℚ × ℚ × ℚ × ℚ :=
  (ewaldY erfc exp TWO_OVER_SQRT_PI alphaEwald (tableR cutoffDistance i),
   ewaldY erfc exp TWO_OVER_SQRT_PI alphaEwald (tableR cutoffDistance (i + 1)),
   deriv i * ewaldDX cutoffDistance * ewaldDX cutoffDistance / 6,
   deriv (i + 1) * ewaldDX cutoffDistance * ewaldDX cutoffDistance / 6)

/-! ## Ewald scale-factor lookup (ewaldScaleFunction, lines 693-710)

The C function writes lane i of a local array y only when
index[i] < NUM_TABLE_POINTS; other lanes keep whatever the array held, which
the embedding makes explicit as the parameter yInit.  The table is an opaque
memory function from bucket index to the stored quadruple. -/

def ewaldScaleFunction (ewaldDXInv : ℚ) (table : ℤ → ℚ × ℚ × ℚ × ℚ)
    (yInit : Fin 4 → ℚ) (x : Fin 4 → ℚ) : Fin 4 → ℚ :=
  fun i =>
    let x1 := x i * ewaldDXInv
    let index : ℤ := ⌊x1⌋
    if index < (NUM_TABLE_POINTS : ℤ) then
      let c1 := x1 - (index : ℚ)
      let c0 := 1 - c1
      let c2 := c0 * c0 * c0 - c0
      let c3 := c1 * c1 * c1 - c1
      c0 * (table index).1 + c1 * (table index).2.1 +
        c2 * (table index).2.2.1 + c3 * (table index).2.2.2
    else yInit i

/-- The per-lane inclusion condition of calculateBlockEwaldIxn, line 600:
a lane enters the accumulation only when it is not excluded and its squared
distance is below the squared cutoff. -/
def blockEwaldIncludeLane (excluded : Bool) (r2 cutoffDistance : ℚ) : Prop :=
  excluded = false ∧ r2 < cutoffDistance * cutoffDistance

/-- C2: a lane of ewaldScaleFunction whose bucket index
floor(r*ewaldDXInv) is at least NUM_TABLE_POINTS is left unmodified (it
returns the pre-existing lane value and contributes nothing of its own), and
such lanes can never be included lanes: the cutoff inclusion mask of
calculateBlockEwaldIxn admits only r^2 < cutoff^2, which forces the bucket
index below NUM_TABLE_POINTS. -/
theorem ewaldScale_out_of_range (cutoffDistance dxInv : ℚ)
    (table : ℤ → ℚ × ℚ × ℚ × ℚ) (yInit x : Fin 4 → ℚ) (i : Fin 4)
    (excluded : Bool)
    (hc : 0 < cutoffDistance) (hdx : dxInv = (ewaldDX cutoffDistance)⁻¹) :
    ((NUM_TABLE_POINTS : ℤ) ≤ ⌊x i * dxInv⌋ →
      ewaldScaleFunction dxInv table yInit x i = yInit i) ∧
    (0 ≤ x i → blockEwaldIncludeLane excluded (x i * x i) cutoffDistance →
      ⌊x i * dxInv⌋ < (NUM_TABLE_POINTS : ℤ)) := by
  constructor
  · intro h
    unfold ewaldScaleFunction
    rw [if_neg (not_lt.2 h)]
  · intro hx0 hinc
    have hr : x i < cutoffDistance := by nlinarith [hinc.2]
    have hdx1023 : dxInv = 1023 / cutoffDistance := by
      rw [hdx]
      unfold ewaldDX NUM_TABLE_POINTS
      rw [inv_div]
      norm_num
    rw [hdx1023]
    have h1 : x i / cutoffDistance < 1 := (div_lt_one hc).2 hr
    have hlt : x i * (1023 / cutoffDistance) < 1023 := by
      have h2 : x i * (1023 / cutoffDistance) = (x i / cutoffDistance) * 1023 := by
        ring
      rw [h2]
      nlinarith
    refine Int.floor_lt.2 ?_
    push_cast
    unfold NUM_TABLE_POINTS
    push_cast
    linarith

/-- Witness for the C2 theorem: with cutoff 1 the grid step is 1/1023; the
point x = 2 falls in bucket 2046, far past the table end, and the lookup
returns the untouched lane value 5. -/
theorem ewaldScale_out_of_range_witness :
    ewaldScaleFunction (ewaldDX 1)⁻¹ (fun _ => (0, 0, 0, 0)) (fun _ => 5)
      (fun _ => 2) 0 = 5 := by
  have h := ewaldScale_out_of_range 1 (ewaldDX 1)⁻¹ (fun _ => (0, 0, 0, 0))
    (fun _ => 5) (fun _ => 2) 0 false (by norm_num) rfl
  refine h.1 ?_
  have he : ((2 : ℚ) * (ewaldDX 1)⁻¹) = ((2046 : ℤ) : ℚ) := by
    unfold ewaldDX NUM_TABLE_POINTS
    norm_num
  show (NUM_TABLE_POINTS : ℤ) ≤ ⌊(2 : ℚ) * (ewaldDX 1)⁻¹⌋
  rw [he, Int.floor_intCast]
  unfold NUM_TABLE_POINTS
  norm_num

/-- C7: tabulateEwaldScaleFactor samples y at exactly NUM_TABLE_POINTS+1 =
1026 points r_i = i*cutoff/(NUM_TABLE_POINTS-2), a uniform grid of step
ewaldDX = cutoff/(NUM_TABLE_POINTS-2) whose last sample lies exactly two
steps beyond the cutoff distance, and stores per bucket i the quadruple
(y_i, y_{i+1}, deriv_i*step^2/6, deriv_{i+1}*step^2/6). -/
theorem tabulateEwaldScaleFactor_grid (erfc exp : ℚ → ℚ)
    (TWO_OVER_SQRT_PI : ℚ) (deriv : ℕ → ℚ) (alphaEwald cutoffDistance : ℚ) (i : ℕ) :
    NUM_TABLE_POINTS + 1 = 1026 ∧
    (ewaldTableSamples erfc exp TWO_OVER_SQRT_PI alphaEwald cutoffDistance).length = 1026 ∧
    tableR cutoffDistance i = (i : ℚ) * ewaldDX cutoffDistance ∧
    tableR cutoffDistance NUM_TABLE_POINTS =
      cutoffDistance + 2 * ewaldDX cutoffDistance ∧
    ewaldScaleTable erfc exp TWO_OVER_SQRT_PI deriv alphaEwald cutoffDistance i =
      (ewaldY erfc exp TWO_OVER_SQRT_PI alphaEwald ((i : ℚ) * ewaldDX cutoffDistance),
       ewaldY erfc exp TWO_OVER_SQRT_PI alphaEwald (((i : ℚ) + 1) * ewaldDX cutoffDistance),
       deriv i * ewaldDX cutoffDistance ^ 2 / 6,
       deriv (i + 1) * ewaldDX cutoffDistance ^ 2 / 6) := by
  have hstep : ∀ j : ℕ, tableR cutoffDistance j = (j : ℚ) * ewaldDX cutoffDistance := by
    intro j
    unfold tableR ewaldDX
    ring
  refine ⟨rfl, by simp [ewaldTableSamples, NUM_TABLE_POINTS], hstep i, ?_, ?_⟩
  · rw [hstep]
    unfold ewaldDX NUM_TABLE_POINTS
    push_cast
    ring
  · unfold ewaldScaleTable
    rw [hstep, hstep]
    push_cast
    ring_nf

/-! ## Minimum-image displacement (getDeltaR, lines 660-667)

deltaR = posJ - posI; when the periodic flag is set, each component is
reduced by round(deltaR*invBoxSize)*boxSize.  Components are modelled
per-axis with Fin 3 indexing. -/

def getDeltaR (periodic : Bool) (boxSize invBoxSize posI posJ : Fin 3 → ℚ) :
    Fin 3 → ℚ :=
  fun m =>
    let d := posJ m - posI m
    if periodic then d - ((round (d * invBoxSize m) : ℤ) : ℚ) * boxSize m else d

/-- C3: with periodic wrapping enabled in getDeltaR, the magnitude of each
wrapped displacement component is at most half the corresponding box
dimension, for every pair of positions and every positive box dimension. -/
theorem getDeltaR_minimum_image (boxSize invBoxSize posI posJ : Fin 3 → ℚ)
    (m : Fin 3) (hL : 0 < boxSize m) (hinv : invBoxSize m = (boxSize m)⁻¹) :
    |getDeltaR true boxSize invBoxSize posI posJ m| ≤ boxSize m / 2 := by
  unfold getDeltaR
  simp only [if_pos]
  rw [hinv]
  have hL0 : boxSize m ≠ 0 := ne_of_gt hL
  have key : posJ m - posI m -
      ((round ((posJ m - posI m) * (boxSize m)⁻¹) : ℤ) : ℚ) * boxSize m =
      ((posJ m - posI m) * (boxSize m)⁻¹ -
        ((round ((posJ m - posI m) * (boxSize m)⁻¹) : ℤ) : ℚ)) * boxSize m := by
    field_simp
    ring
  rw [key, abs_mul, abs_of_pos hL]
  have hround : |(posJ m - posI m) * (boxSize m)⁻¹ -
      ((round ((posJ m - posI m) * (boxSize m)⁻¹) : ℤ) : ℚ)| ≤ 1 / 2 :=
    abs_sub_round _
  calc |(posJ m - posI m) * (boxSize m)⁻¹ -
      ((round ((posJ m - posI m) * (boxSize m)⁻¹) : ℤ) : ℚ)| * boxSize m
      ≤ (1 / 2) * boxSize m := mul_le_mul_of_nonneg_right hround (le_of_lt hL)
    _ = boxSize m / 2 := by ring

/-- Witness for the C3 theorem: box 1, displacement 3/4 wraps to -1/4, whose
magnitude is at most 1/2. -/
theorem getDeltaR_minimum_image_witness :
    |getDeltaR true (fun _ => 1) (fun _ => 1) (fun _ => 0) (fun _ => 3 / 4) 0| ≤
      (1 : ℚ) / 2 := by
  have h := getDeltaR_minimum_image (fun _ => 1) (fun _ => 1) (fun _ => 0)
    (fun _ => 3 / 4) 0 (by norm_num) (by norm_num)
  exact h

/-! ## Direct-space pair kernels (calculateOneIxn, lines 394-446, and
calculateBlockIxn, lines 448-556)

The kernels are embedded as functions of the pair separation r (the C code
computes r2 from the positions and r = sqrt(r2); here r is taken as input
and r2 = r*r).  The per-atom parameters are sigma (first) and epsilon
 (second); chargeProd = ONE_4PI_EPS0*q_i*q_j with the Coulomb constant an
externally defined parameter.  A pair that fails the cutoff or inclusion
test yields none. -/

/-- The switching polynomial of the scalar path, lines 406-411: evaluated
only when useSwitch and r > switchingDistance, otherwise
 (switchValue, switchDeriv) = (1, 0). -/
def switchParams (useSwitch : Bool) (switchingDistance cutoffDistance r : ℚ) :
    ℚ × ℚ :=
  if useSwitch ∧ r > switchingDistance then
    let t := (r - switchingDistance) / (cutoffDistance - switchingDistance)
    (1 + t * t * t * (-10 + t * (15 - t * 6)),
     t * t * (-30 + t * (60 - t * 30)) / (cutoffDistance - switchingDistance))
  else (1, 0)

/-- The switching polynomial of the blocked paths, lines 502-507 and 610-615:
when useSwitch holds, t is masked to 0 for lanes with r <= switchingDistance
and the polynomials are evaluated unconditionally. -/
def blockSwitchParams (useSwitch : Bool) (switchingDistance cutoffDistance r : ℚ) :
    ℚ × ℚ :=
  if useSwitch then
    let t := if r > switchingDistance then
        (r - switchingDistance) / (cutoffDistance - switchingDistance)
      else 0
    (1 + t * t * t * (-10 + t * (15 - t * 6)),
     t * t * (-30 + t * (60 - t * 30)) / (cutoffDistance - switchingDistance))
  else (1, 0)

structure PairIxn where
  dEdR : ℚ
  energy : ℚ
  deriving DecidableEq, Repr

/-- Scalar pair kernel calculateOneIxn (lines 394-446) as a function of the
separation r.  Returns none when the cutoff test r2 >= cutoff^2 rejects the
pair (line 402); energy is the value accumulated when totalEnergy is
requested. -/
def calculateOneIxn (cutoff useSwitch : Bool)
    (cutoffDistance switchingDistance krf crf : ℚ)
    (ONE_4PI_EPS0 sigI epsI qI sigJ epsJ qJ r : ℚ) : Option PairIxn :=
  let r2 := r * r
  if cutoff ∧ cutoffDistance * cutoffDistance ≤ r2 then none
  else
    let inverseR := 1 / r
    let sw := switchParams useSwitch switchingDistance cutoffDistance r
    let sig := sigI + sigJ
    let sig2 := (inverseR * sig) * (inverseR * sig)
    let sig6 := sig2 * sig2 * sig2
    let eps := epsI * epsJ
    let dEdR0 := sw.1 * eps * (12 * sig6 - 6) * sig6
    let chargeProd := ONE_4PI_EPS0 * qI * qJ
    let dEdR1 := dEdR0 +
      (if cutoff then chargeProd * (inverseR - 2 * krf * r2)
       else chargeProd * inverseR)
    let dEdR2 := dEdR1 * (inverseR * inverseR)
    let energy0 := eps * (sig6 - 1) * sig6
    let dEdR3 := if useSwitch then dEdR2 - energy0 * sw.2 * inverseR else dEdR2
    let energy1 := if useSwitch then energy0 * sw.1 else energy0
    let energy2 := energy1 +
      (if cutoff then chargeProd * (inverseR + krf * r2 - crf)
       else chargeProd * inverseR)
    some { dEdR := dEdR3, energy := energy2 }

/-- One lane of the blocked pair kernel calculateBlockIxn (lines 448-556) as
a function of the separation r.  The lane is dropped (none) when the
inclusion mask of line 492 rejects it: excluded bit set, or cutoff enabled
and r2 >= cutoff^2. -/
def calculateBlockIxnLane (cutoff useSwitch : Bool)
    (cutoffDistance switchingDistance krf crf : ℚ)
    (ONE_4PI_EPS0 sigI epsI qI sigJ epsJ qJ r : ℚ) (excluded : Bool) :
    Option PairIxn :=
  let r2 := r * r
  if excluded = false ∧ (cutoff = false ∨ r2 < cutoffDistance * cutoffDistance) then
    let inverseR := 1 / r
    let sw := blockSwitchParams useSwitch switchingDistance cutoffDistance r
    let sig := sigI + sigJ
    let sig2 := (inverseR * sig) * (inverseR * sig)
    let sig6 := sig2 * sig2 * sig2
    let eps := epsI * epsJ
    let dEdR0 := sw.1 * eps * (12 * sig6 - 6) * sig6
    let chargeProd := ONE_4PI_EPS0 * qI * qJ
    let dEdR1 := dEdR0 +
      (if cutoff then chargeProd * (inverseR - 2 * krf * r2)
       else chargeProd * inverseR)
    let dEdR2 := dEdR1 * (inverseR * inverseR)
    let energy0 := eps * (sig6 - 1) * sig6
    let dEdR3 := if useSwitch then dEdR2 - energy0 * sw.2 * inverseR else dEdR2
    let energy1 := if useSwitch then energy0 * sw.1 else energy0
    let energy2 := energy1 +
      (if cutoff then chargeProd * (inverseR + krf * r2 - crf)
       else chargeProd * inverseR)
    some { dEdR := dEdR3, energy := energy2 }
  else none

/-! ## Specification-side Lennard-Jones formulas (spec section 4.2)

These re-state the specification text: combinedSigma = sigma_i + sigma_j,
combinedEpsilon = eps_i*eps_j, sig2 = (combinedSigma*inverseR)^2,
sig6 = sig2^3, dEdR contribution = switch*eps*(12*sig6-6)*sig6, energy =
eps*(sig6-1)*sig6 scaled by switch.  They are compared against the kernels
embedded from the code above. -/

def sig6Spec (sigI sigJ r : ℚ) : ℚ :=
  (((sigI + sigJ) * (1 / r)) ^ 2) ^ 3

def ljdEdRSpec (switchValue sigI sigJ epsI epsJ r : ℚ) : ℚ :=
  switchValue * (epsI * epsJ) * (12 * sig6Spec sigI sigJ r - 6) * sig6Spec sigI sigJ r

def ljEnergySpec (switchValue sigI sigJ epsI epsJ r : ℚ) : ℚ :=
  switchValue * (epsI * epsJ) * (sig6Spec sigI sigJ r - 1) * sig6Spec sigI sigJ r

/-- The full per-pair dEdR of spec section 4.2: the LJ term
switch*eps*(12*sig6-6)*sig6 plus the Coulomb term for the active mode, all
scaled by inverseR^2, minus the switching product-rule correction
energy*switchDeriv*inverseR (the correction vanishes when switching is off
since switchDeriv = 0). -/
def specPairdEdR (cutoff : Bool) (switchValue switchDeriv krf ONE_4PI_EPS0
    sigI epsI qI sigJ epsJ qJ r : ℚ) : ℚ :=
  (ljdEdRSpec switchValue sigI sigJ epsI epsJ r +
      (if cutoff = true then ONE_4PI_EPS0 * qI * qJ * (1 / r - 2 * krf * (r * r))
       else ONE_4PI_EPS0 * qI * qJ * (1 / r))) * (1 / r) * (1 / r) -
    ljEnergySpec 1 sigI sigJ epsI epsJ r * switchDeriv * (1 / r)

/-- The full per-pair energy of spec section 4.2: the LJ energy
eps*(sig6-1)*sig6 scaled by switchValue, plus the Coulomb energy for the
active mode. -/
def specPairEnergy (cutoff : Bool) (switchValue krf crf ONE_4PI_EPS0
    sigI epsI qI sigJ epsJ qJ r : ℚ) : ℚ :=
  ljEnergySpec switchValue sigI sigJ epsI epsJ r +
    (if cutoff = true then ONE_4PI_EPS0 * qI * qJ * (1 / r + krf * (r * r) - crf)
     else ONE_4PI_EPS0 * qI * qJ * (1 / r))

/-- C4: for every included pair, both the scalar path (calculateOneIxn) and
the blocked path (calculateBlockIxnLane) compute the Lennard-Jones terms
with combined sigma = sigma_i + sigma_j, combined epsilon = eps_i*eps_j,
sig2 = (sig*inverseR)^2, sig6 = sig2^3, LJ contribution to dEdR =
switchValue*eps*(12*sig6-6)*sig6 (assembled into the total dEdR per
specPairdEdR), and LJ energy = eps*(sig6-1)*sig6 scaled by switchValue
 (assembled per specPairEnergy); and in the concrete scenario of two atoms
with sigma = 3/10 each, epsilon = 1/2 each, zero charge, separation 33/100
and no cutoff, the computed dEdR equals the direct evaluation of the formula
and is positive. -/
theorem lj_pair_formula (cutoff useSwitch : Bool)
    (cutoffDistance switchingDistance krf crf ONE_4PI_EPS0
      sigI epsI qI sigJ epsJ qJ r : ℚ)
    (hinc : ¬ (cutoff = true ∧ cutoffDistance * cutoffDistance ≤ r * r)) :
    (calculateOneIxn cutoff useSwitch cutoffDistance switchingDistance krf crf
        ONE_4PI_EPS0 sigI epsI qI sigJ epsJ qJ r =
      some ⟨specPairdEdR cutoff
              (switchParams useSwitch switchingDistance cutoffDistance r).1
              (switchParams useSwitch switchingDistance cutoffDistance r).2
              krf ONE_4PI_EPS0 sigI epsI qI sigJ epsJ qJ r,
            specPairEnergy cutoff
              (switchParams useSwitch switchingDistance cutoffDistance r).1
              krf crf ONE_4PI_EPS0 sigI epsI qI sigJ epsJ qJ r⟩) ∧
    (calculateBlockIxnLane cutoff useSwitch cutoffDistance switchingDistance krf crf
        ONE_4PI_EPS0 sigI epsI qI sigJ epsJ qJ r false =
      some ⟨specPairdEdR cutoff
              (blockSwitchParams useSwitch switchingDistance cutoffDistance r).1
              (blockSwitchParams useSwitch switchingDistance cutoffDistance r).2
              krf ONE_4PI_EPS0 sigI epsI qI sigJ epsJ qJ r,
            specPairEnergy cutoff
              (blockSwitchParams useSwitch switchingDistance cutoffDistance r).1
              krf crf ONE_4PI_EPS0 sigI epsI qI sigJ epsJ qJ r⟩) ∧
    (calculateOneIxn false false cutoffDistance switchingDistance krf crf ONE_4PI_EPS0
        (3 / 10) (1 / 2) 0 (3 / 10) (1 / 2) 0 (33 / 100) =
      some ⟨ljdEdRSpec 1 (3 / 10) (3 / 10) (1 / 2) (1 / 2) (33 / 100) *
              (100 / 33) * (100 / 33),
            ljEnergySpec 1 (3 / 10) (3 / 10) (1 / 2) (1 / 2) (33 / 100)⟩) ∧
    0 < ljdEdRSpec 1 (3 / 10) (3 / 10) (1 / 2) (1 / 2) (33 / 100) *
          (100 / 33) * (100 / 33) := by
  have hsw0 : switchParams false switchingDistance cutoffDistance r = (1, 0) := by
    simp [switchParams]
  have hbsw0 : blockSwitchParams false switchingDistance cutoffDistance r = (1, 0) := by
    simp [blockSwitchParams]
  refine ⟨?_, ?_, ?_, ?_⟩
  · unfold calculateOneIxn
    rw [if_neg hinc]
    simp only [Option.some.injEq, PairIxn.mk.injEq]
    cases useSwitch
    · rw [hsw0]
      cases cutoff <;>
        simp only [if_pos, if_neg, Bool.false_eq_true, if_false, if_true,
          specPairdEdR, specPairEnergy, ljdEdRSpec, ljEnergySpec, sig6Spec] <;>
        constructor <;> ring
    · cases cutoff <;>
        simp only [if_pos, if_neg, Bool.false_eq_true, if_false, if_true,
          specPairdEdR, specPairEnergy, ljdEdRSpec, ljEnergySpec, sig6Spec] <;>
        constructor <;> ring
  · unfold calculateBlockIxnLane
    rw [if_pos]
    · simp only [Option.some.injEq, PairIxn.mk.injEq]
      cases useSwitch
      · rw [hbsw0]
        cases cutoff <;>
          simp only [if_pos, if_neg, Bool.false_eq_true, if_false, if_true,
            specPairdEdR, specPairEnergy, ljdEdRSpec, ljEnergySpec, sig6Spec] <;>
          constructor <;> ring
      · cases cutoff <;>
          simp only [if_pos, if_neg, Bool.false_eq_true, if_false, if_true,
            specPairdEdR, specPairEnergy, ljdEdRSpec, ljEnergySpec, sig6Spec] <;>
          constructor <;> ring
    · refine ⟨rfl, ?_⟩
      cases cutoff
      · exact Or.inl rfl
      · exact Or.inr (lt_of_not_le (fun hle => hinc ⟨rfl, hle⟩))
  · norm_num [calculateOneIxn, switchParams, ljdEdRSpec, ljEnergySpec, sig6Spec]
  · norm_num [ljdEdRSpec, sig6Spec]

/-- Witness for the C4 theorem: all parameters zero, separation 1, no
cutoff; the kernel yields dEdR = 0 and energy = 0. -/
theorem lj_pair_formula_witness :
    calculateOneIxn false false 0 0 0 0 0 0 0 0 0 0 0 1 = some ⟨0, 0⟩ := by
  have h := lj_pair_formula false false 0 0 0 0 0 0 0 0 0 0 0 1 (by simp)
  refine h.1.trans ?_
  norm_num [specPairdEdR, specPairEnergy, ljdEdRSpec, ljEnergySpec, sig6Spec,
    switchParams]

/-- C6: the switching polynomials used in calculateOneIxn and
calculateBlockIxn, with t = (r - switchingDistance)/(cutoffDistance -
switchingDistance), give switchValue = 1 and switchDeriv = 0 at
r = switchingDistance and switchValue = 0 and switchDeriv = 0 at
r = cutoffDistance. -/
theorem switch_taper_endpoints (switchingDistance cutoffDistance : ℚ)
    (h : switchingDistance < cutoffDistance) :
    switchParams true switchingDistance cutoffDistance switchingDistance = (1, 0) ∧
    switchParams true switchingDistance cutoffDistance cutoffDistance = (0, 0) ∧
    blockSwitchParams true switchingDistance cutoffDistance switchingDistance = (1, 0) ∧
    blockSwitchParams true switchingDistance cutoffDistance cutoffDistance = (0, 0) := by
  have hne : cutoffDistance - switchingDistance ≠ 0 := sub_ne_zero.2 (ne_of_gt h)
  have ht : (cutoffDistance - switchingDistance) / (cutoffDistance - switchingDistance) = 1 :=
    div_self hne
  refine ⟨?_, ?_, ?_, ?_⟩
  · simp [switchParams]
  · unfold switchParams
    rw [if_pos ⟨rfl, h⟩]
    rw [ht]
    norm_num
  · unfold blockSwitchParams
    rw [if_pos rfl]
    simp [lt_irrefl]
  · unfold blockSwitchParams
    rw [if_pos rfl]
    rw [if_pos h, ht]
    norm_num

/-- Witness for the C6 theorem at switchingDistance 0, cutoffDistance 1. -/
theorem switch_taper_endpoints_witness :
    switchParams true 0 1 0 = (1, 0) ∧ switchParams true 0 1 1 = (0, 0) ∧
    blockSwitchParams true 0 1 0 = (1, 0) ∧ blockSwitchParams true 0 1 1 = (0, 0) :=
  switch_taper_endpoints 0 1 (by norm_num)

/-! ## Reaction-field constants (setUseCutoff, lines 75-82) -/

/-- krf = cutoff^(-3) * (solventDielectric - 1)/(2*solventDielectric + 1),
line 80. -/
def krf (cutoffDistance solventDielectric : ℚ) : ℚ :=
  (cutoffDistance ^ 3)⁻¹ * (solventDielectric - 1) / (2 * solventDielectric + 1)

/-- crf = (1/cutoff) * (3*solventDielectric)/(2*solventDielectric + 1),
line 81. -/
def crf (cutoffDistance solventDielectric : ℚ) : ℚ :=
  (1 / cutoffDistance) * (3 * solventDielectric) / (2 * solventDielectric + 1)

/-- C5: with krf and crf as set by setUseCutoff, the reaction-field per-pair
energy term chargeProd*(inverseR + krf*r^2 - crf) evaluated at r = cutoff is
exactly zero, for every positive cutoff and every solventDielectric for
which the defining fractions exist (2*solventDielectric + 1 nonzero); hence
the reaction-field energy tends to 0 as the real separation r approaches the
cutoff. -/
theorem reactionField_zero_at_cutoff (chargeProd cutoffDistance solventDielectric : ℚ)
    (hc : 0 < cutoffDistance) (hd : 2 * solventDielectric + 1 ≠ 0) :
    chargeProd * (1 / cutoffDistance +
        krf cutoffDistance solventDielectric * (cutoffDistance * cutoffDistance) -
        crf cutoffDistance solventDielectric) = 0 ∧
    Filter.Tendsto (fun r : ℝ =>
        (chargeProd : ℝ) * (1 / r +
          ((krf cutoffDistance solventDielectric : ℚ) : ℝ) * r ^ 2 -
          ((crf cutoffDistance solventDielectric : ℚ) : ℝ)))
      (nhds ((cutoffDistance : ℚ) : ℝ)) (nhds 0) := by
  have hcne : cutoffDistance ≠ 0 := ne_of_gt hc
  constructor
  · unfold krf crf
    field_simp
    ring
  · have hc0 : ((cutoffDistance : ℚ) : ℝ) ≠ 0 := by
      exact_mod_cast hcne
    have hd0 : 2 * ((solventDielectric : ℚ) : ℝ) + 1 ≠ 0 := by
      intro hcontra
      apply hd
      have : ((2 * solventDielectric + 1 : ℚ) : ℝ) = 0 := by
        push_cast
        linarith
      exact_mod_cast this
    have hval : (chargeProd : ℝ) * (1 / ((cutoffDistance : ℚ) : ℝ) +
        ((krf cutoffDistance solventDielectric : ℚ) : ℝ) *
          ((cutoffDistance : ℚ) : ℝ) ^ 2 -
        ((crf cutoffDistance solventDielectric : ℚ) : ℝ)) = 0 := by
      unfold krf crf
      push_cast
      field_simp
      ring
    have c1 : ContinuousAt (fun r : ℝ => 1 / r) ((cutoffDistance : ℚ) : ℝ) := by
      simpa [one_div] using continuousAt_inv₀ hc0
    have c2 : ContinuousAt (fun r : ℝ =>
        ((krf cutoffDistance solventDielectric : ℚ) : ℝ) * r ^ 2)
        ((cutoffDistance : ℚ) : ℝ) := continuousAt_const.mul (continuousAt_id.pow 2)
    have hcont : ContinuousAt (fun r : ℝ =>
        (chargeProd : ℝ) * (1 / r +
          ((krf cutoffDistance solventDielectric : ℚ) : ℝ) * r ^ 2 -
          ((crf cutoffDistance solventDielectric : ℚ) : ℝ)))
        ((cutoffDistance : ℚ) : ℝ) :=
      continuousAt_const.mul ((c1.add c2).sub continuousAt_const)
    have htd := hcont.tendsto
    rw [hval] at htd
    exact htd

/-- Witness for the C5 theorem at chargeProd 1, cutoff 2, dielectric 78. -/
theorem reactionField_zero_at_cutoff_witness :
    (1 : ℚ) * (1 / 2 + krf 2 78 * (2 * 2) - crf 2 78) = 0 :=
  (reactionField_zero_at_cutoff 1 2 78 (by norm_num) (by norm_num)).1

/-! ## Thread reduction (calculateDirectIxn, lines 294-328)

After the fork-join, calculateDirectIxn sums the per-thread energies into a
double accumulator starting from 0 and, for every force slot of the 4-float
per-atom layout, folds the per-thread partial forces onto the value already
in the caller buffer.  The energy is added to *totalEnergy only when the
pointer is non-null, modelled as an Option. -/

def threadReduceForce (numThreads : ℕ) (threadForce : ℕ → ℕ → ℚ)
    (forces : ℕ → ℚ) (slot : ℕ) : ℚ :=
  (List.range numThreads).foldl (fun f j => f + threadForce j slot) (forces slot)

def threadReduceEnergy (numThreads : ℕ) (threadEnergy : ℕ → ℚ) : ℚ :=
  (List.range numThreads).foldl (fun e j => e + threadEnergy j) 0

/-- The buffer-combining tail of calculateDirectIxn (lines 313-327): the
returned pair is (output force buffer, output energy). -/
def calculateDirectIxnCombine (numberOfAtoms numThreads : ℕ)
    (threadForce : ℕ → ℕ → ℚ) (threadEnergy : ℕ → ℚ) (forces : ℕ → ℚ)
    (totalEnergy : Option ℚ) : (ℕ → ℚ) × Option ℚ :=
  (fun slot =>
    if slot < 4 * numberOfAtoms then threadReduceForce numThreads threadForce forces slot
    else forces slot,
   totalEnergy.map (fun e => e + threadReduceEnergy numThreads threadEnergy))

lemma foldl_add_eq_sum (f : ℕ → ℚ) (init : ℚ) (n : ℕ) :
    (List.range n).foldl (fun a j => a + f j) init =
      init + ∑ j ∈ Finset.range n, f j := by
  induction n with
  | zero => simp
  | succ n ih =>
    rw [List.range_succ, List.foldl_append, List.foldl_cons, List.foldl_nil, ih,
      Finset.sum_range_succ]
    ring

/-- C8: calculateDirectIxn accumulates additively into the caller buffers and
never overwrites them: every force slot of the output equals its input value
plus the sum over all threads of that thread's private partial for the slot;
the per-thread energies are summed and added to the energy output only when
an energy output is present (none maps to none). -/
theorem calculateDirectIxn_accumulates (numberOfAtoms numThreads : ℕ)
    (threadForce : ℕ → ℕ → ℚ) (threadEnergy : ℕ → ℚ) (forces : ℕ → ℚ)
    (totalEnergy : Option ℚ) (slot : ℕ) (hslot : slot < 4 * numberOfAtoms) :
    ((calculateDirectIxnCombine numberOfAtoms numThreads threadForce threadEnergy
        forces totalEnergy).1 slot =
      forces slot + ∑ j ∈ Finset.range numThreads, threadForce j slot) ∧
    ((calculateDirectIxnCombine numberOfAtoms numThreads threadForce threadEnergy
        forces totalEnergy).2 =
      totalEnergy.map (fun e => e + ∑ j ∈ Finset.range numThreads, threadEnergy j)) ∧
    ((calculateDirectIxnCombine numberOfAtoms numThreads threadForce threadEnergy
        forces none).2 = none) := by
  refine ⟨?_, ?_, rfl⟩
  · unfold calculateDirectIxnCombine threadReduceForce
    dsimp only
    rw [if_pos hslot, foldl_add_eq_sum]
  · unfold calculateDirectIxnCombine threadReduceEnergy
    rw [foldl_add_eq_sum]
    simp

/-- Witness for the C8 theorem: one atom, two threads; slot 0 starts at 10,
thread partials 1 and 2, output 13; energy starts at 5, thread energies 0
and 1, output 6. -/
theorem calculateDirectIxn_accumulates_witness :
    (calculateDirectIxnCombine 1 2 (fun j _ => (j : ℚ) + 1) (fun j => (j : ℚ))
        (fun _ => 10) (some 5)).1 0 = 13 ∧
    (calculateDirectIxnCombine 1 2 (fun j _ => (j : ℚ) + 1) (fun j => (j : ℚ))
        (fun _ => 10) (some 5)).2 = some 6 := by
  have h := calculateDirectIxn_accumulates 1 2 (fun j _ => (j : ℚ) + 1)
    (fun j => (j : ℚ)) (fun _ => 10) (some 5) 0 (by norm_num)
  constructor
  · rw [h.1]
    norm_num [Finset.sum_range_succ]
  · rw [h.2.1]
    norm_num [Finset.sum_range_succ]

/-! ## Brute-force pair enumeration (threadComputeDirect, lines 383-391)

With no cutoff, the loop over all atom pairs i < j computes a pair exactly
when exclusions[j].find(i) == exclusions[j].end(), i.e. when i is not in the
higher-indexed atom's exclusion list.  The pairs visited across all threads
are modelled as a single list (the thread striping partitions the same
set of i values). -/

def bruteForcePairs (numberOfAtoms : ℕ) (exclusions : ℕ → List ℕ) :
    List (ℕ × ℕ) :=
  (List.range numberOfAtoms).flatMap (fun i =>
    ((List.range' (i + 1) (numberOfAtoms - (i + 1))).filter
        (fun j => decide (i ∉ exclusions j))).map (fun j => (i, j)))

lemma mem_bruteForcePairs {numberOfAtoms : ℕ} {exclusions : ℕ → List ℕ}
    {i j : ℕ} :
    (i, j) ∈ bruteForcePairs numberOfAtoms exclusions ↔
      i < j ∧ j < numberOfAtoms ∧ i ∉ exclusions j := by
  unfold bruteForcePairs
  simp only [List.mem_flatMap, List.mem_range, List.mem_map, List.mem_filter,
    List.mem_range'_1, decide_eq_true_eq, Prod.mk.injEq]
  constructor
  · rintro ⟨a, ha, b, ⟨⟨hb1, hb2⟩, hb3⟩, rfl, rfl⟩
    exact ⟨by omega, by omega, hb3⟩
  · rintro ⟨h1, h2, h3⟩
    exact ⟨i, by omega, ⟨j, ⟨⟨by omega, by omega⟩, h3⟩, rfl, rfl⟩⟩

/-- C9: in the brute-force no-cutoff path, the pair (i, j) with i < j is
computed exactly when i is not a member of exclusions[j]; the set
exclusions[i] is never consulted for that pair, so replacing exclusions[i]
by anything else leaves the decision unchanged. -/
theorem bruteForce_exclusion_asymmetric (numberOfAtoms : ℕ)
    (exclusions : ℕ → List ℕ) (i j : ℕ) (S : List ℕ) :
    ((i, j) ∈ bruteForcePairs numberOfAtoms exclusions ↔
      i < j ∧ j < numberOfAtoms ∧ i ∉ exclusions j) ∧
    ((i, j) ∈ bruteForcePairs numberOfAtoms (Function.update exclusions i S) ↔
      (i, j) ∈ bruteForcePairs numberOfAtoms exclusions) := by
  refine ⟨mem_bruteForcePairs, ?_⟩
  rw [mem_bruteForcePairs, mem_bruteForcePairs]
  by_cases hij : i < j
  · rw [Function.update_noteq (show j ≠ i by omega)]
  · constructor
    · rintro ⟨h1, _, _⟩
      exact absurd h1 hij
    · rintro ⟨h1, _, _⟩
      exact absurd h1 hij

/-! ## Ewald exclusion-correction pass (threadComputeDirect, lines 352-375)

Each atom i iterates its own exclusion set and processes only partners
with index greater than i; the displacement is computed by getDeltaR with
the periodic flag hard-coded to false (line 360). -/

def ewaldExclusionPairs (numberOfAtoms : ℕ) (exclusions : ℕ → List ℕ) :
    List (ℕ × ℕ) :=
  (List.range numberOfAtoms).flatMap (fun i =>
    ((exclusions i).filter (fun j => decide (i < j))).map (fun j => (i, j)))

lemma mem_ewaldExclusionPairs {numberOfAtoms : ℕ} {exclusions : ℕ → List ℕ}
    {i j : ℕ} :
    (i, j) ∈ ewaldExclusionPairs numberOfAtoms exclusions ↔
      i < numberOfAtoms ∧ j ∈ exclusions i ∧ i < j := by
  unfold ewaldExclusionPairs
  simp only [List.mem_flatMap, List.mem_range, List.mem_map, List.mem_filter,
    decide_eq_true_eq, Prod.mk.injEq]
  constructor
  · rintro ⟨a, ha, b, ⟨hb1, hb2⟩, rfl, rfl⟩
    exact ⟨ha, hb1, hb2⟩
  · rintro ⟨h1, h2, h3⟩
    exact ⟨i, h1, ⟨j, ⟨h2, h3⟩, rfl, rfl⟩⟩

lemma nodup_ewaldExclusionPairs {numberOfAtoms : ℕ} {exclusions : ℕ → List ℕ}
    (hset : ∀ k, (exclusions k).Nodup) :
    (ewaldExclusionPairs numberOfAtoms exclusions).Nodup := by
  unfold ewaldExclusionPairs
  rw [List.nodup_flatMap]
  constructor
  · intro i _
    refine List.Nodup.map ?_ ((hset i).filter _)
    intro a b hab
    simpa using hab
  · refine (List.pairwise_lt_range _).imp ?_
    intro a b hlt
    rw [Function.onFun, List.disjoint_left]
    intro v hv1 hv2
    simp only [List.mem_map, List.mem_filter] at hv1 hv2
    obtain ⟨x, _, rfl⟩ := hv1
    obtain ⟨y, _, hy⟩ := hv2
    have : a = b := by
      have := congrArg Prod.fst hy
      simpa using this.symm
    omega

/-- C10: in the Ewald/PME exclusion-correction pass, each excluded pair is
processed exactly once, only by the lower-indexed atom iterating partners
with index greater than its own (the reversed orientation is never
processed), and the pair displacement is computed by getDeltaR with the
periodic flag forced to false, which returns the raw componentwise
difference with no minimum-image wrapping for every box. -/
theorem ewald_exclusion_correction_pass (numberOfAtoms : ℕ)
    (exclusions : ℕ → List ℕ) (hset : ∀ k, (exclusions k).Nodup)
    (i j : ℕ) (hij : i < j) :
    ((ewaldExclusionPairs numberOfAtoms exclusions).count (i, j) =
      if i < numberOfAtoms ∧ j ∈ exclusions i then 1 else 0) ∧
    (ewaldExclusionPairs numberOfAtoms exclusions).count (j, i) = 0 ∧
    (∀ (boxSize invBoxSize posI posJ : Fin 3 → ℚ) (m : Fin 3),
      getDeltaR false boxSize invBoxSize posI posJ m = posJ m - posI m) := by
  refine ⟨?_, ?_, fun boxSize invBoxSize posI posJ m => rfl⟩
  · by_cases h : i < numberOfAtoms ∧ j ∈ exclusions i
    · rw [if_pos h]
      exact count_eq_one_of_nodup_mem (nodup_ewaldExclusionPairs hset)
        (mem_ewaldExclusionPairs.2 ⟨h.1, h.2, hij⟩)
    · rw [if_neg h]
      refine List.count_eq_zero_of_not_mem (fun hm => ?_)
      have hx := mem_ewaldExclusionPairs.1 hm
      exact h ⟨hx.1, hx.2.1⟩
  · refine List.count_eq_zero_of_not_mem (fun hm => ?_)
    have hx := mem_ewaldExclusionPairs.1 hm
    omega

/-- Witness for the C10 theorem: two atoms, atom 0 excludes atom 1; the pair
 (0,1) is processed once and the unwrapped displacement is the raw
difference. -/
theorem ewald_exclusion_correction_pass_witness :
    (ewaldExclusionPairs 2 (fun k => if k = 0 then [1] else [])).count (0, 1) = 1 ∧
    getDeltaR false (fun _ => 1) (fun _ => 1) (fun _ => 0) (fun _ => 3) 0 = 3 := by
  have h := ewald_exclusion_correction_pass 2 (fun k => if k = 0 then [1] else [])
    (fun k => by by_cases hk : k = 0 <;> simp [hk]) 0 1 (by norm_num)
  constructor
  · rw [h.1]
    decide
  · rw [h.2.2 (fun _ => 1) (fun _ => 1) (fun _ => 0) (fun _ => 3) 0]
    norm_num

end CpuNonbonded
